import Mathlib

/-!
Shallow embedding of the asset-and-order ledger of the
Blockchain-Powered-AI-Model-Dataset-Ownership repository.

The three Solidity contracts are modelled as pure Lean state machines:
* `AIAssetNFT` (asset registry: mint, version update, direct buy, transfer);
* `Marketplace` (order book: fixed-price orders, auctions, bids, settlement);
* `LicenseManager` (licenses and usage records).

Accounts are natural numbers (`0` is the zero address), money amounts and
timestamps are natural numbers (Solidity 0.8 checked arithmetic reverts on
overflow/underflow rather than wrapping, so a *successful* execution computes
exactly the natural-number value; the one subtraction that could underflow is
modelled by an explicit check returning `Err.underflow`, mirroring the
implicit revert).  Each external function takes the caller (`sender`), the
block timestamp (`now`) and the attached value (`msgValue`) as explicit
arguments and returns `Except Err (state × payments)`: an `Err` result models
a revert, so on error no state changes and no value moves.  Outgoing
`transfer` calls are collected in an ordered list of `Payment`s.

Solidity `mapping`s are total functions with the zero value as default, and
the `_xxxIdCounter` counters start at 0 exactly as in the source, so the
record stored at id 0 has an id field equal to 0.
-/

namespace AIAsset

/-- Accounts are opaque identifiers; `0` is the zero address. -/
abbrev Account := Nat

/-- An outgoing value transfer (`payable(to).transfer(amount)`). -/
structure Payment where
  payee : Account
  amount : Nat
deriving DecidableEq, Repr

/-- One error constructor per distinct `require` message in the contracts. -/
inductive Err where
  /-- "Not the asset owner" -/
  | notAssetOwner
  /-- "Invalid asset type" -/
  | invalidAssetType
  /-- "Royalty cannot exceed 10%" -/
  | invalidRoyalty
  /-- "IPFS hash required" -/
  | hashRequired
  /-- "IPFS hash already used" (the spec's `DuplicateContent`) -/
  | duplicateContent
  /-- "Name required" -/
  | nameRequired
  /-- "Version required" -/
  | versionRequired
  /-- "Asset not for sale" -/
  | notForSale
  /-- "Insufficient payment" -/
  | insufficientPayment
  /-- "Cannot buy own asset" / "Cannot buy own order" / "Cannot bid on own auction" -/
  | selfTrade
  /-- ERC721 transfer from an address that is not the owner -/
  | notOwnerERC721
  /-- `Pausable`: operation attempted while paused -/
  | pausedErr
  /-- "Order does not exist" -/
  | orderNotFound
  /-- "Order not active" (the spec's `OrderInactive`) -/
  | orderInactive
  /-- "Order expired" (the spec's `OrderExpired`) -/
  | orderExpired
  /-- "This is an auction order" / "This is not an auction order" -/
  | wrongOrderKind
  /-- "Price must be greater than 0" / "Starting price must be greater than 0" -/
  | priceZero
  /-- "Duration must be greater than 0" -/
  | durationZero
  /-- "Bid must be higher than current highest bid" -/
  | bidTooLow
  /-- "Bid must be at least the starting price" -/
  | bidBelowStarting
  /-- "Cannot withdraw highest bid" (the spec's `IsHighestBidder`) -/
  | isHighestBidder
  /-- "No bid found" -/
  | noBidFound
  /-- "Auction not ended yet" (the spec's `NotExpired`) -/
  | notExpired
  /-- "Auction already ended" (the spec's `AlreadyEnded`) -/
  | alreadyEnded
  /-- "No bids placed" -/
  | noBids
  /-- "Not the order owner" (the spec's `NotSeller`) -/
  | notSeller
  /-- "Order already sold" (the spec's `AlreadySold`) -/
  | alreadySold
  /-- "Asset not licensable" -/
  | notLicensable
  /-- "Invalid licensee" -/
  | invalidLicensee
  /-- "Cannot license to self" -/
  | selfLicense
  /-- "License does not exist" -/
  | licenseNotFound
  /-- "License not active" -/
  | licenseInactive
  /-- "License expired" -/
  | licenseHasExpired
  /-- "Not the licensee" -/
  | notLicensee
  /-- "Not the license owner" -/
  | notLicensor
  /-- Solidity 0.8 checked subtraction underflow (implicit revert) -/
  | underflow
deriving DecidableEq, Repr

/-! ## Asset registry (`AIAssetNFT.sol`) -/

/-- The `Asset` struct of `AIAssetNFT.sol`.  `assetType` is the enum tag
(0 = MODEL, 1 = SCRIPT, 2 = DATASET). -/
structure Asset where
  tokenId : Nat
  assetType : Nat
  name : String
  description : String
  version : String
  creator : Account
  createdAt : Nat
  updatedAt : Nat
  ipfsHash : String
  isPublic : Bool
  royaltyPercentage : Nat
  price : Nat
  isForSale : Bool
deriving DecidableEq, Repr

/-- The all-zero `Asset` a Solidity mapping returns for an absent key. -/
def zeroAsset : Asset :=
  { tokenId := 0, assetType := 0, name := "", description := "", version := ""
    creator := 0, createdAt := 0, updatedAt := 0, ipfsHash := "", isPublic := false
    royaltyPercentage := 0, price := 0, isForSale := false }

/-- The `Version` struct of `AIAssetNFT.sol` (one version-history entry). -/
structure VersionRec where
  version : String
  ipfsHash : String
  timestamp : Nat
  changelog : String
deriving DecidableEq, Repr

/-- State of the `AIAssetNFT` contract.  `ownerOf` is the ERC721 owner
mapping (0 = unminted/no owner); approvals are elided because the only
modelled caller of `transferFrom` is the marketplace settlement path. -/
structure NFTState where
  tokenIdCounter : Nat
  assets : Nat → Asset
  assetVersions : Nat → List VersionRec
  ownerOf : Nat → Account
  usedIPFSHashes : String → Bool
  paused : Bool

/-- Freshly deployed `AIAssetNFT`. -/
def initialNFT : NFTState :=
  { tokenIdCounter := 0, assets := fun _ => zeroAsset
    assetVersions := fun _ => [], ownerOf := fun _ => 0
    usedIPFSHashes := fun _ => false, paused := false }

/-- `AIAssetNFT.mintAsset`.  Checks in source order: `whenNotPaused`,
`validAssetType`, `validRoyaltyPercentage`, then the body requires on hash,
hash uniqueness and name.  Returns the new state and the minted token id. -/
def mintAsset (st : NFTState) (sender : Account) (now : Nat)
    (assetType : Nat) (name description version ipfsHash : String)
    (isPublic : Bool) (royaltyPercentage price : Nat) (isForSale : Bool) :
    Except Err (NFTState × Nat) :=
  if st.paused then .error .pausedErr
  else if ¬ assetType < 3 then .error .invalidAssetType
  else if ¬ royaltyPercentage ≤ 1000 then .error .invalidRoyalty
  else if ipfsHash = "" then .error .hashRequired
  else if st.usedIPFSHashes ipfsHash then .error .duplicateContent
  else if name = "" then .error .nameRequired
  else
    let tokenId := st.tokenIdCounter
    let a : Asset :=
      { tokenId := tokenId, assetType := assetType, name := name
        description := description, version := version, creator := sender
        createdAt := now, updatedAt := now, ipfsHash := ipfsHash
        isPublic := isPublic, royaltyPercentage := royaltyPercentage
        price := price, isForSale := isForSale }
    let v : VersionRec :=
      { version := version, ipfsHash := ipfsHash, timestamp := now
        changelog := "Initial version" }
    .ok ({ st with
            tokenIdCounter := tokenId + 1
            assets := fun i => if i = tokenId then a else st.assets i
            ownerOf := fun i => if i = tokenId then sender else st.ownerOf i
            usedIPFSHashes := fun h => if h = ipfsHash then true else st.usedIPFSHashes h
            assetVersions := fun i =>
              if i = tokenId then st.assetVersions i ++ [v] else st.assetVersions i },
          tokenId)

/-- `AIAssetNFT.updateAsset`.  Checks in source order: `onlyAssetOwner`,
`whenNotPaused`, then hash nonempty, hash unused, version nonempty. -/
def updateAsset (st : NFTState) (sender : Account) (now : Nat)
    (tokenId : Nat) (newVersion newIPFSHash changelog : String) :
    Except Err NFTState :=
  if ¬ st.ownerOf tokenId = sender then .error .notAssetOwner
  else if st.paused then .error .pausedErr
  else if newIPFSHash = "" then .error .hashRequired
  else if st.usedIPFSHashes newIPFSHash then .error .duplicateContent
  else if newVersion = "" then .error .versionRequired
  else
    let a := st.assets tokenId
    let a' := { a with version := newVersion, updatedAt := now, ipfsHash := newIPFSHash }
    let v : VersionRec :=
      { version := newVersion, ipfsHash := newIPFSHash, timestamp := now
        changelog := changelog }
    .ok { st with
          assets := fun i => if i = tokenId then a' else st.assets i
          usedIPFSHashes := fun h => if h = newIPFSHash then true else st.usedIPFSHashes h
          assetVersions := fun i =>
            if i = tokenId then st.assetVersions i ++ [v] else st.assetVersions i }

/-- `AIAssetNFT.updateAssetPrice`. -/
def updateAssetPrice (st : NFTState) (sender : Account)
    (tokenId newPrice : Nat) (isForSale : Bool) : Except Err NFTState :=
  if ¬ st.ownerOf tokenId = sender then .error .notAssetOwner
  else if st.paused then .error .pausedErr
  else
    let a := st.assets tokenId
    let a' := { a with price := newPrice, isForSale := isForSale }
    .ok { st with assets := fun i => if i = tokenId then a' else st.assets i }

/-- `AIAssetNFT.buyAsset` (the direct-buy path).  Computes the royalty split,
transfers ownership, clears `isForSale`/`price`, then pays creator, seller
and refunds the excess to the buyer, in source order. -/
def buyAsset (st : NFTState) (sender : Account)
    (tokenId msgValue : Nat) : Except Err (NFTState × List Payment) :=
  if st.paused then .error .pausedErr
  else
    let a := st.assets tokenId
    if ¬ a.isForSale then .error .notForSale
    else if ¬ msgValue ≥ a.price then .error .insufficientPayment
    else if st.ownerOf tokenId = sender then .error .selfTrade
    else
      let seller := st.ownerOf tokenId
      let salePrice := a.price
      let royaltyAmount := salePrice * a.royaltyPercentage / 10000
      if royaltyAmount > salePrice then .error .underflow
      else
        let sellerAmount := salePrice - royaltyAmount
        let a' := { a with isForSale := false, price := 0 }
        let pays :=
          (if royaltyAmount > 0 then [⟨a.creator, royaltyAmount⟩] else [])
            ++ [⟨seller, sellerAmount⟩]
            ++ (if msgValue > salePrice then [⟨sender, msgValue - salePrice⟩] else [])
        .ok ({ st with
                assets := fun i => if i = tokenId then a' else st.assets i
                ownerOf := fun i => if i = tokenId then sender else st.ownerOf i },
              pays)

/-- ERC721 `transferFrom` as invoked by the marketplace settlement: moves
the token from `fro` to `dst`, failing when `fro` is not the owner. -/
def transferFrom (st : NFTState) (fro dst : Account) (tokenId : Nat) :
    Except Err NFTState :=
  if ¬ st.ownerOf tokenId = fro then .error .notOwnerERC721
  else
    .ok { st with ownerOf := fun i => if i = tokenId then dst else st.ownerOf i }

/-! ## Order book (`Marketplace.sol`) -/

/-- The `Order` struct of `Marketplace.sol`.  `highestBidder = 0` and
`buyer = 0` stand for the unset zero address. -/
structure Order where
  orderId : Nat
  assetTokenId : Nat
  seller : Account
  buyer : Account
  price : Nat
  startTime : Nat
  endTime : Nat
  isActive : Bool
  isAuction : Bool
  highestBid : Nat
  highestBidder : Account
deriving DecidableEq, Repr

/-- The all-zero `Order` a Solidity mapping returns for an absent key.
Note `orderId = 0`: the `validOrder` modifier treats any order whose stored
`orderId` field is 0 as nonexistent. -/
def zeroOrder : Order :=
  { orderId := 0, assetTokenId := 0, seller := 0, buyer := 0, price := 0
    startTime := 0, endTime := 0, isActive := false, isAuction := false
    highestBid := 0, highestBidder := 0 }

/-- The `Bid` struct of `Marketplace.sol` (append-only per-order log). -/
structure BidRec where
  bidder : Account
  amount : Nat
  timestamp : Nat
deriving DecidableEq, Repr

/-- State of the `Marketplace` contract.  `contractOwner` is the `Ownable`
owner that receives the marketplace fee. -/
structure MarketState where
  orderIdCounter : Nat
  orders : Nat → Order
  orderBids : Nat → List BidRec
  marketplaceFee : Nat
  contractOwner : Account
  paused : Bool

/-- Freshly deployed `Marketplace` (fee 250 bps, deployed by `deployer`). -/
def initialMarket (deployer : Account) : MarketState :=
  { orderIdCounter := 0, orders := fun _ => zeroOrder
    orderBids := fun _ => [], marketplaceFee := 250
    contractOwner := deployer, paused := false }

/-- `Marketplace.createFixedPriceOrder`.  Checks in source order:
`onlyAssetOwner` (against the NFT contract), `whenNotPaused`, `price > 0`.
The new order gets `endTime = 0` ("No end time for fixed price"). -/
def createFixedPriceOrder (nft : NFTState) (mkt : MarketState)
    (sender : Account) (now : Nat) (assetTokenId price : Nat) :
    Except Err MarketState :=
  if ¬ nft.ownerOf assetTokenId = sender then .error .notAssetOwner
  else if mkt.paused then .error .pausedErr
  else if ¬ price > 0 then .error .priceZero
  else
    let orderId := mkt.orderIdCounter
    let o : Order :=
      { orderId := orderId, assetTokenId := assetTokenId, seller := sender
        buyer := 0, price := price, startTime := now, endTime := 0
        isActive := true, isAuction := false, highestBid := 0, highestBidder := 0 }
    .ok { mkt with
          orderIdCounter := orderId + 1
          orders := fun i => if i = orderId then o else mkt.orders i }

/-- `Marketplace.createAuctionOrder`.  `endTime = now + duration`. -/
def createAuctionOrder (nft : NFTState) (mkt : MarketState)
    (sender : Account) (now : Nat) (assetTokenId startingPrice duration : Nat) :
    Except Err MarketState :=
  if ¬ nft.ownerOf assetTokenId = sender then .error .notAssetOwner
  else if mkt.paused then .error .pausedErr
  else if ¬ startingPrice > 0 then .error .priceZero
  else if ¬ duration > 0 then .error .durationZero
  else
    let orderId := mkt.orderIdCounter
    let o : Order :=
      { orderId := orderId, assetTokenId := assetTokenId, seller := sender
        buyer := 0, price := startingPrice, startTime := now
        endTime := now + duration, isActive := true, isAuction := true
        highestBid := 0, highestBidder := 0 }
    .ok { mkt with
          orderIdCounter := orderId + 1
          orders := fun i => if i = orderId then o else mkt.orders i }

/-- `Marketplace._executeSale`: reads the asset's royalty rate, computes
`fee = price * marketplaceFee / 10000`, `royalty = price * royaltyPercentage
/ 10000`, `sellerAmount = price - fee - royalty` (the Solidity 0.8 checked
subtraction is the explicit `underflow` branch), transfers the token from
the seller to the buyer, marks the order filled, then pays creator, seller
and platform in source order. -/
def executeSale (nft : NFTState) (mkt : MarketState)
    (orderId : Nat) (buyer : Account) (price : Nat) :
    Except Err ((NFTState × MarketState) × List Payment) :=
  let o := mkt.orders orderId
  let asset := nft.assets o.assetTokenId
  let marketplaceFeeAmount := price * mkt.marketplaceFee / 10000
  let royaltyAmount := price * asset.royaltyPercentage / 10000
  if marketplaceFeeAmount + royaltyAmount > price then .error .underflow
  else
    let sellerAmount := price - marketplaceFeeAmount - royaltyAmount
    match transferFrom nft o.seller buyer o.assetTokenId with
    | .error e => .error e
    | .ok nft' =>
      let o' := { o with buyer := buyer, isActive := false }
      let mkt' := { mkt with orders := fun i => if i = orderId then o' else mkt.orders i }
      let pays :=
        (if royaltyAmount > 0 then [⟨asset.creator, royaltyAmount⟩] else [])
          ++ [⟨o.seller, sellerAmount⟩]
          ++ (if marketplaceFeeAmount > 0 then [⟨mkt.contractOwner, marketplaceFeeAmount⟩] else [])
      .ok ((nft', mkt'), pays)

/-- `Marketplace.buyFixedPriceOrder`.  Modifier order: `validOrder`,
`activeOrder` (`isActive`, then `block.timestamp <= endTime`), then the body
requires: not an auction, `msg.value >= price`, `seller != msg.sender`. -/
def buyFixedPriceOrder (nft : NFTState) (mkt : MarketState)
    (sender : Account) (now : Nat) (orderId msgValue : Nat) :
    Except Err ((NFTState × MarketState) × List Payment) :=
  let o := mkt.orders orderId
  if o.orderId = 0 then .error .orderNotFound
  else if ¬ o.isActive then .error .orderInactive
  else if ¬ now ≤ o.endTime then .error .orderExpired
  else if o.isAuction then .error .wrongOrderKind
  else if ¬ msgValue ≥ o.price then .error .insufficientPayment
  else if o.seller = sender then .error .selfTrade
  else executeSale nft mkt orderId sender o.price

/-- `Marketplace.placeBid`.  Modifier order: `validOrder`, `activeOrder`,
then: must be an auction, not the seller, `msg.value > highestBid`,
`msg.value >= price`.  Refunds the displaced highest bidder (if any) and
appends the bid to the order's bid log. -/
def placeBid (mkt : MarketState) (sender : Account) (now : Nat)
    (orderId msgValue : Nat) : Except Err (MarketState × List Payment) :=
  let o := mkt.orders orderId
  if o.orderId = 0 then .error .orderNotFound
  else if ¬ o.isActive then .error .orderInactive
  else if ¬ now ≤ o.endTime then .error .orderExpired
  else if ¬ o.isAuction then .error .wrongOrderKind
  else if sender = o.seller then .error .selfTrade
  else if ¬ msgValue > o.highestBid then .error .bidTooLow
  else if ¬ msgValue ≥ o.price then .error .bidBelowStarting
  else
    let refund := if o.highestBidder ≠ 0 then [Payment.mk o.highestBidder o.highestBid] else []
    let o' := { o with highestBid := msgValue, highestBidder := sender }
    .ok ({ mkt with
            orders := fun i => if i = orderId then o' else mkt.orders i
            orderBids := fun i =>
              if i = orderId then mkt.orderBids i ++ [⟨sender, msgValue, now⟩]
              else mkt.orderBids i },
          refund)

/-- The bid-lookup loop of `Marketplace.withdrawBid`: the amount of the
FIRST bid in the log whose bidder is `sender` (the loop `break`s at the
first match), 0 when there is none. -/
def firstBidAmount (bids : List BidRec) (sender : Account) : Nat :=
  match bids with
  | [] => 0
  | b :: rest => if b.bidder = sender then b.amount else firstBidAmount rest sender

/-- Modelled from the spec: the spec says `withdrawBid` "refunds bidder's
last recorded bid amount for that order"; this is that quantity (the amount
of the LAST bid in the log whose bidder is `sender`), defined only to be
compared against what the code refunds. -/
def lastBidAmount (bids : List BidRec) (sender : Account) : Nat :=
  firstBidAmount bids.reverse sender

/-- `Marketplace.withdrawBid`.  Checks: `validOrder`, must be an auction,
caller is not the highest bidder, the looked-up bid amount is positive.
Refunds that amount; the contract state is NOT modified (the bid log keeps
the refunded bid). -/
def withdrawBid (mkt : MarketState) (sender : Account) (orderId : Nat) :
    Except Err (MarketState × List Payment) :=
  let o := mkt.orders orderId
  if o.orderId = 0 then .error .orderNotFound
  else if ¬ o.isAuction then .error .wrongOrderKind
  else if o.highestBidder = sender then .error .isHighestBidder
  else
    let bidAmount := firstBidAmount (mkt.orderBids orderId) sender
    if ¬ bidAmount > 0 then .error .noBidFound
    else .ok (mkt, [⟨sender, bidAmount⟩])

/-- `Marketplace.endAuction`.  Checks in source order: `validOrder`, must be
an auction, `block.timestamp >= endTime` ("Auction not ended yet"),
`isActive` ("Auction already ended"), a highest bidder exists; then settles
via `_executeSale` at the highest bid. -/
def endAuction (nft : NFTState) (mkt : MarketState)
    (_sender : Account) (now : Nat) (orderId : Nat) :
    Except Err ((NFTState × MarketState) × List Payment) :=
  let o := mkt.orders orderId
  if o.orderId = 0 then .error .orderNotFound
  else if ¬ o.isAuction then .error .wrongOrderKind
  else if ¬ now ≥ o.endTime then .error .notExpired
  else if ¬ o.isActive then .error .alreadyEnded
  else if o.highestBidder = 0 then .error .noBids
  else executeSale nft mkt orderId o.highestBidder o.highestBid

/-- `Marketplace.cancelOrder`.  Checks in source order: `validOrder`, caller
is the seller, `isActive`, no buyer yet.  Refunds a live highest bidder and
deactivates the order. -/
def cancelOrder (mkt : MarketState) (sender : Account) (orderId : Nat) :
    Except Err (MarketState × List Payment) :=
  let o := mkt.orders orderId
  if o.orderId = 0 then .error .orderNotFound
  else if ¬ o.seller = sender then .error .notSeller
  else if ¬ o.isActive then .error .orderInactive
  else if ¬ o.buyer = 0 then .error .alreadySold
  else
    let refund := if o.isAuction ∧ o.highestBidder ≠ 0 then [Payment.mk o.highestBidder o.highestBid] else []
    let o' := { o with isActive := false }
    .ok ({ mkt with orders := fun i => if i = orderId then o' else mkt.orders i }, refund)

/-! ## License registry (`LicenseManager.sol`) -/

/-- The `License` struct of `LicenseManager.sol`.  `licenseType` is the enum
tag (0 = COMMERCIAL, 1 = NON_COMMERCIAL, 2 = RESEARCH, 3 = CUSTOM). -/
structure License where
  licenseId : Nat
  assetTokenId : Nat
  licensor : Account
  licensee : Account
  licenseType : Nat
  price : Nat
  duration : Nat
  startTime : Nat
  endTime : Nat
  isActive : Bool
  terms : String
  createdAt : Nat
deriving DecidableEq, Repr

/-- The all-zero `License` a Solidity mapping returns for an absent key. -/
def zeroLicense : License :=
  { licenseId := 0, assetTokenId := 0, licensor := 0, licensee := 0
    licenseType := 0, price := 0, duration := 0, startTime := 0, endTime := 0
    isActive := false, terms := "", createdAt := 0 }

/-- The `UsageRecord` struct of `LicenseManager.sol`. -/
structure UsageRecord where
  licenseId : Nat
  user : Account
  timestamp : Nat
  action : String
  details : String
deriving DecidableEq, Repr

/-- State of the `LicenseManager` contract. -/
structure LMState where
  licenseIdCounter : Nat
  licenses : Nat → License
  licenseUsage : Nat → List UsageRecord
  userLicenses : Account → List Nat
  userIssuedLicenses : Account → List Nat
  assetLicensable : Nat → Bool
  paused : Bool

/-- Freshly deployed `LicenseManager`. -/
def initialLM : LMState :=
  { licenseIdCounter := 0, licenses := fun _ => zeroLicense
    licenseUsage := fun _ => [], userLicenses := fun _ => []
    userIssuedLicenses := fun _ => [], assetLicensable := fun _ => false
    paused := false }

/-- `LicenseManager.createLicense`.  Checks in source order: `whenNotPaused`,
licensable, `licensee != 0`, `licensee != msg.sender`, `msg.value >= price`.
The license's licensor is `msg.sender`; the `price` payout AND the excess
refund both go to `msg.sender` (the caller), exactly as in the source. -/
def createLicense (st : LMState) (sender : Account) (now msgValue : Nat)
    (assetTokenId : Nat) (licensee : Account) (licenseType price duration : Nat)
    (terms : String) : Except Err (LMState × List Payment) :=
  if st.paused then .error .pausedErr
  else if ¬ st.assetLicensable assetTokenId then .error .notLicensable
  else if licensee = 0 then .error .invalidLicensee
  else if licensee = sender then .error .selfLicense
  else if ¬ msgValue ≥ price then .error .insufficientPayment
  else
    let licenseId := st.licenseIdCounter
    let startTime := now
    let endTime := if duration > 0 then startTime + duration else 0
    let lic : License :=
      { licenseId := licenseId, assetTokenId := assetTokenId, licensor := sender
        licensee := licensee, licenseType := licenseType, price := price
        duration := duration, startTime := startTime, endTime := endTime
        isActive := true, terms := terms, createdAt := now }
    let pays :=
      (if price > 0 then [Payment.mk sender price] else [])
        ++ (if msgValue > price then [Payment.mk sender (msgValue - price)] else [])
    .ok ({ st with
            licenseIdCounter := licenseId + 1
            licenses := fun i => if i = licenseId then lic else st.licenses i
            userLicenses := fun u =>
              if u = licensee then st.userLicenses u ++ [licenseId] else st.userLicenses u
            userIssuedLicenses := fun u =>
              if u = sender then st.userIssuedLicenses u ++ [licenseId] else st.userIssuedLicenses u },
          pays)

/-- `LicenseManager.recordUsage`.  Modifier order: `validLicense`,
`activeLicense` (`isActive`, then the expiry window), `onlyLicensee`. -/
def recordUsage (st : LMState) (sender : Account) (now : Nat)
    (licenseId : Nat) (action details : String) : Except Err LMState :=
  let lic := st.licenses licenseId
  if lic.licenseId = 0 then .error .licenseNotFound
  else if ¬ lic.isActive then .error .licenseInactive
  else if ¬ (lic.endTime = 0 ∨ now ≤ lic.endTime) then .error .licenseHasExpired
  else if ¬ lic.licensee = sender then .error .notLicensee
  else
    let rec0 : UsageRecord :=
      { licenseId := licenseId, user := sender, timestamp := now
        action := action, details := details }
    .ok { st with
          licenseUsage := fun i =>
            if i = licenseId then st.licenseUsage i ++ [rec0] else st.licenseUsage i }

/-- The per-license validity test inlined in `hasValidLicense`:
the license targets the asset, is active, and is inside its window
(`endTime == 0 || block.timestamp <= endTime`). -/
def licenseMatches (lic : License) (assetTokenId now : Nat) : Bool :=
  lic.assetTokenId = assetTokenId ∧ lic.isActive ∧ (lic.endTime = 0 ∨ now ≤ lic.endTime)

/-- `LicenseManager.hasValidLicense`: scans the caller-indexed
`userLicenses[user]` list for a license of the asset that is active and
unexpired. -/
def hasValidLicense (st : LMState) (user : Account) (assetTokenId now : Nat) : Bool :=
  (st.userLicenses user).any fun id => licenseMatches (st.licenses id) assetTokenId now

/-- `LicenseManager.deactivateLicense`.  Checks: `validLicense`,
`onlyLicenseOwner` (licensor). -/
def deactivateLicense (st : LMState) (sender : Account) (licenseId : Nat) :
    Except Err LMState :=
  let lic := st.licenses licenseId
  if lic.licenseId = 0 then .error .licenseNotFound
  else if ¬ lic.licensor = sender then .error .notLicensor
  else
    .ok { st with
          licenses := fun i =>
            if i = licenseId then { lic with isActive := false } else st.licenses i }

/-- `LicenseManager.setAssetLicensability` (admin). -/
def setAssetLicensability (st : LMState) (assetTokenId : Nat) (licensable : Bool) : LMState :=
  { st with
    assetLicensable := fun i => if i = assetTokenId then licensable else st.assetLicensable i }

/-! ## Reachable states

The invariant-style claims quantify over every state the contracts can
actually reach, so we close the embedded operations under an inductive
reachability predicate (one constructor per mutating entry point; admin
pausing is over-approximated by allowing the flag to be set freely, which
only enlarges the set of states the invariants must cover). -/

/-- States of the `AIAssetNFT` contract reachable from deployment. -/
inductive NFTReach : NFTState → Prop where
  | init : NFTReach initialNFT
  | mint {st sender now ty nm d v h pub roy pr fs st' tid} :
      NFTReach st →
      mintAsset st sender now ty nm d v h pub roy pr fs = .ok (st', tid) →
      NFTReach st'
  | update {st sender now tid nv nh cl st'} :
      NFTReach st →
      updateAsset st sender now tid nv nh cl = .ok st' →
      NFTReach st'
  | price {st sender tid np fs st'} :
      NFTReach st →
      updateAssetPrice st sender tid np fs = .ok st' →
      NFTReach st'
  | buy {st sender tid v st' pays} :
      NFTReach st →
      buyAsset st sender tid v = .ok (st', pays) →
      NFTReach st'
  | transfer {st fro dst tid st'} :
      NFTReach st →
      transferFrom st fro dst tid = .ok st' →
      NFTReach st'
  | setPaused {st} (b : Bool) :
      NFTReach st →
      NFTReach { st with paused := b }

/-- States of the `LicenseManager` contract reachable from deployment. -/
inductive LMReach : LMState → Prop where
  | init : LMReach initialLM
  | create {st sender now v a lic ty p d terms st' pays} :
      LMReach st →
      createLicense st sender now v a lic ty p d terms = .ok (st', pays) →
      LMReach st'
  | usage {st sender now id action details st'} :
      LMReach st →
      recordUsage st sender now id action details = .ok st' →
      LMReach st'
  | deactivate {st sender id st'} :
      LMReach st →
      deactivateLicense st sender id = .ok st' →
      LMReach st'
  | setLicensable {st} (a : Nat) (b : Bool) :
      LMReach st →
      LMReach (setAssetLicensability st a b)
  | setPaused {st} (b : Bool) :
      LMReach st →
      LMReach { st with paused := b }

/-- The registry invariant backing content-hash uniqueness: every hash
recorded anywhere in any asset's version history is marked used (and is
nonempty, since mint/update reject empty hashes). -/
def HashInv (st : NFTState) : Prop :=
  ∀ tid vrec, vrec ∈ st.assetVersions tid →
    st.usedIPFSHashes vrec.ipfsHash = true ∧ vrec.ipfsHash ≠ ""

/-- The invariant backing `hasValidLicense`: the `userLicenses` index lists
exactly the licenses whose `licensee` is that user, and ids outside the
counter range are unassigned. -/
def LicenseInv (st : LMState) : Prop :=
  (∀ u id, id ∈ st.userLicenses u →
    id < st.licenseIdCounter ∧ (st.licenses id).licensee = u) ∧
  (∀ id, id < st.licenseIdCounter → id ∈ st.userLicenses (st.licenses id).licensee)

/-! ## Concrete fixture states used by witnesses and counterexamples -/

/-- A registry holding one asset: token 0, creator and owner account 1,
royalty 250 bps, listed for sale at 50. -/
def nftA : NFTState :=
  { tokenIdCounter := 1
    assets := fun i =>
      if i = 0 then
        { tokenId := 0, assetType := 0, name := "m", description := "d"
          version := "1", creator := 1, createdAt := 0, updatedAt := 0
          ipfsHash := "Qm1", isPublic := true, royaltyPercentage := 250
          price := 50, isForSale := true }
      else zeroAsset
    assetVersions := fun i =>
      if i = 0 then [{ version := "1", ipfsHash := "Qm1", timestamp := 0
                       changelog := "Initial version" }]
      else []
    ownerOf := fun i => if i = 0 then 1 else 0
    usedIPFSHashes := fun h => h == "Qm1"
    paused := false }

/-- A marketplace (fee 250 bps, owner account 9) holding two orders on
token 0 by seller 1: order 1 is a live auction (start 10, ends at 10, bid
log `[(2,10),(4,15),(2,20),(4,25)]`, highest bidder 4 at 25) and order 2 is
a live fixed-price order at 50 (`endTime = 0`). -/
def mktA : MarketState :=
  { orderIdCounter := 3
    orders := fun i =>
      if i = 1 then
        { orderId := 1, assetTokenId := 0, seller := 1, buyer := 0, price := 10
          startTime := 0, endTime := 10, isActive := true, isAuction := true
          highestBid := 25, highestBidder := 4 }
      else if i = 2 then
        { orderId := 2, assetTokenId := 0, seller := 1, buyer := 0, price := 50
          startTime := 0, endTime := 0, isActive := true, isAuction := false
          highestBid := 0, highestBidder := 0 }
      else zeroOrder
    orderBids := fun i =>
      if i = 1 then [⟨2, 10, 1⟩, ⟨4, 15, 2⟩, ⟨2, 20, 3⟩, ⟨4, 25, 4⟩] else []
    marketplaceFee := 250
    contractOwner := 9
    paused := false }

/-- The fixture marketplace after account 5 bids 30 on auction order 1 at
time 5 (mirrors the record update performed by `placeBid`). -/
def mktA2 : MarketState :=
  { mktA with
    orders := fun i =>
      if i = 1 then { mktA.orders 1 with highestBid := 30, highestBidder := 5 }
      else mktA.orders i
    orderBids := fun i =>
      if i = 1 then mktA.orderBids i ++ [⟨5, 30, 5⟩] else mktA.orderBids i }

/-- The fixture registry after auction order 1 settles: token 0 now belongs
to winning bidder 4 (mirrors the record update performed by
`_executeSale`/`transferFrom`). -/
def nftB : NFTState :=
  { nftA with ownerOf := fun i => if i = 0 then 4 else nftA.ownerOf i }

/-- The fixture marketplace after auction order 1 settles at the highest
bid 25 to bidder 4: the order is filled (`buyer = 4`, inactive). -/
def mktB : MarketState :=
  { mktA with
    orders := fun i =>
      if i = 1 then { mktA.orders 1 with buyer := 4, isActive := false }
      else mktA.orders i }

/-- The fixture registry after account 3 buys token 0 directly
(`buyAsset`): ownership moves to 3 and the listing is cleared. -/
def nftC : NFTState :=
  { nftA with
    assets := fun i =>
      if i = 0 then { nftA.assets 0 with isForSale := false, price := 0 }
      else nftA.assets i
    ownerOf := fun i => if i = 0 then 3 else nftA.ownerOf i }

/-- The freshly deployed registry after account 1 mints asset 0 at time 0
with content hash "Qm1" (mirrors the record update performed by
`mintAsset`), giving a reachable state whose version history contains
"Qm1". -/
def nftR : NFTState :=
  { initialNFT with
    tokenIdCounter := 1
    assets := fun i =>
      if i = 0 then
        { tokenId := 0, assetType := 0, name := "m", description := "d"
          version := "1", creator := 1, createdAt := 0, updatedAt := 0
          ipfsHash := "Qm1", isPublic := true, royaltyPercentage := 250
          price := 50, isForSale := true }
      else initialNFT.assets i
    ownerOf := fun i => if i = 0 then 1 else initialNFT.ownerOf i
    usedIPFSHashes := fun h =>
      if h = "Qm1" then true else initialNFT.usedIPFSHashes h
    assetVersions := fun i =>
      if i = 0 then
        initialNFT.assetVersions i
          ++ [{ version := "1", ipfsHash := "Qm1", timestamp := 0
                changelog := "Initial version" }]
      else initialNFT.assetVersions i }

/-- A license manager whose admin has flagged asset 0 licensable. -/
def lmA : LMState := setAssetLicensability initialLM 0 true

/-- `lmA` after account 1 grants license 0 on asset 0 to account 2
(price 30, duration 50, granted at time 5, so `endTime = 55`), paying 100
(mirrors the record update performed by `createLicense`). -/
def lmB : LMState :=
  { lmA with
    licenseIdCounter := 1
    licenses := fun i =>
      if i = 0 then
        { licenseId := 0, assetTokenId := 0, licensor := 1, licensee := 2
          licenseType := 0, price := 30, duration := 50, startTime := 5
          endTime := 55, isActive := true, terms := "t", createdAt := 5 }
      else lmA.licenses i
    userLicenses := fun u =>
      if u = 2 then lmA.userLicenses u ++ [0] else lmA.userLicenses u
    userIssuedLicenses := fun u =>
      if u = 1 then lmA.userIssuedLicenses u ++ [0] else lmA.userIssuedLicenses u }

/-! ## Theorems -/

/-- Both fee rates are capped at 1000 bps, so the two floored shares
together never exceed the price. -/
lemma feeRoyBound (p f r : Nat) (hf : f ≤ 1000) (hr : r ≤ 1000) :
    p * f / 10000 + p * r / 10000 ≤ p := by
  have h1 : p * f ≤ p * 1000 := Nat.mul_le_mul_left p hf
  have h2 : p * r ≤ p * 1000 := Nat.mul_le_mul_left p hr
  have h3 : p * f / 10000 ≤ p * 1000 / 10000 := Nat.div_le_div_right h1
  have h4 : p * r / 10000 ≤ p * 1000 / 10000 := Nat.div_le_div_right h2
  have h5 : p * 1000 / 10000 * 10000 ≤ p * 1000 := Nat.div_mul_le_self _ _
  omega

/-- The only error `transferFrom` can produce is `notOwnerERC721`. -/
lemma transferFrom_error_eq (st : NFTState) (fro dst : Account) (tid : Nat)
    (e : Err) (h : transferFrom st fro dst tid = .error e) :
    e = .notOwnerERC721 := by
  simp only [transferFrom] at h
  split at h <;> simp_all

/-- C2: for every settled sale at price `p` with `royaltyBps ≤ 1000` and
`feeBps ≤ 1000`, `_executeSale` computes `fee = ⌊p*feeBps/10000⌋`,
`royalty = ⌊p*royaltyBps/10000⌋` and `sellerAmount = p - fee - royalty`;
the checked subtraction never underflows (`fee + royalty ≤ p`),
`sellerAmount + royalty + fee = p` exactly, and the amounts actually paid
out on success sum to `p`, so no remainder is lost. -/
theorem executeSale_conservation (nft : NFTState) (mkt : MarketState)
    (orderId : Nat) (buyer : Account) (p : Nat)
    (hroy : (nft.assets (mkt.orders orderId).assetTokenId).royaltyPercentage ≤ 1000)
    (hfee : mkt.marketplaceFee ≤ 1000) :
    executeSale nft mkt orderId buyer p ≠ .error .underflow ∧
    p * mkt.marketplaceFee / 10000
        + p * (nft.assets (mkt.orders orderId).assetTokenId).royaltyPercentage / 10000 ≤ p ∧
    (p - p * mkt.marketplaceFee / 10000
        - p * (nft.assets (mkt.orders orderId).assetTokenId).royaltyPercentage / 10000)
      + p * (nft.assets (mkt.orders orderId).assetTokenId).royaltyPercentage / 10000
      + p * mkt.marketplaceFee / 10000 = p ∧
    ∀ st2 pays, executeSale nft mkt orderId buyer p = .ok (st2, pays) →
      (pays.map Payment.amount).sum = p := by
  have hb := feeRoyBound p mkt.marketplaceFee
    (nft.assets (mkt.orders orderId).assetTokenId).royaltyPercentage hfee hroy
  refine ⟨?_, hb, by omega, ?_⟩
  · intro h
    simp only [executeSale] at h
    split at h
    · next hlt => omega
    · split at h
      · next e heq =>
        have he := transferFrom_error_eq _ _ _ _ e heq
        simp only [Except.error.injEq] at h
        subst he
        exact absurd h.symm (by simp)
      · simp at h
  · intro st2 pays h
    simp only [executeSale] at h
    split at h
    · simp at h
    · split at h
      · simp at h
      · next nft2 heq =>
        simp only [Except.ok.injEq, Prod.mk.injEq] at h
        obtain ⟨⟨h1, h2⟩, h3⟩ := h
        subst h3
        simp only [List.map_append, List.sum_append]
        split <;> split <;> simp <;> omega

/-- Witness for C2: the auction order of the fixture settles at price 10000
with royalty rate 250 bps and fee rate 250 bps. -/
theorem executeSale_conservation_witness :
    executeSale nftA mktA 1 4 10000 ≠ .error .underflow ∧
    10000 * mktA.marketplaceFee / 10000
        + 10000 * (nftA.assets (mktA.orders 1).assetTokenId).royaltyPercentage / 10000 ≤ 10000 ∧
    (10000 - 10000 * mktA.marketplaceFee / 10000
        - 10000 * (nftA.assets (mktA.orders 1).assetTokenId).royaltyPercentage / 10000)
      + 10000 * (nftA.assets (mktA.orders 1).assetTokenId).royaltyPercentage / 10000
      + 10000 * mktA.marketplaceFee / 10000 = 10000 ∧
    ∀ st2 pays, executeSale nftA mktA 1 4 10000 = .ok (st2, pays) →
      (pays.map Payment.amount).sum = 10000 :=
  executeSale_conservation nftA mktA 1 4 10000 (by decide) (by decide)

/-- C5: every accepted bid is strictly greater than the previous highest bid
and at least the starting price; after acceptance the order's `highestBid`
is the new amount (hence `highestBid` is strictly increasing along any
sequence of accepted bids) and `highestBidder` is the bidder of the latest
accepted bid; in the same atomic transition the displaced previous highest
bidder (when there is one) is refunded exactly their full previous bid, and
nobody else is paid; the new bid is appended to the order's bid log. -/
theorem placeBid_monotone (mkt : MarketState) (sender : Account)
    (now orderId msgValue : Nat) (mkt2 : MarketState) (pays : List Payment)
    (h : placeBid mkt sender now orderId msgValue = .ok (mkt2, pays)) :
    msgValue > (mkt.orders orderId).highestBid ∧
    msgValue ≥ (mkt.orders orderId).price ∧
    (mkt2.orders orderId).highestBid = msgValue ∧
    (mkt2.orders orderId).highestBidder = sender ∧
    ((mkt.orders orderId).highestBidder ≠ 0 →
      pays = [⟨(mkt.orders orderId).highestBidder, (mkt.orders orderId).highestBid⟩]) ∧
    ((mkt.orders orderId).highestBidder = 0 → pays = []) ∧
    mkt2.orderBids orderId = mkt.orderBids orderId ++ [⟨sender, msgValue, now⟩] := by
  simp only [placeBid] at h
  split at h; · simp at h
  split at h; · simp at h
  split at h; · simp at h
  split at h; · simp at h
  split at h; · simp at h
  split at h; · simp at h
  split at h; · simp at h
  next h1 h2 h3 h4 h5 h6 h7 =>
  simp only [Except.ok.injEq, Prod.mk.injEq] at h
  obtain ⟨hst, hpays⟩ := h
  subst hst
  refine ⟨by omega, by omega, by simp, by simp, ?_, ?_, by simp⟩
  · intro hne
    rw [← hpays]
    simp [hne]
  · intro hz
    rw [← hpays]
    simp [hz]

/-- Witness for C5: account 5 bids 30 on auction order 1 of the fixture,
displacing highest bidder 4 who is refunded 25. -/
theorem placeBid_monotone_witness :
    30 > (mktA.orders 1).highestBid ∧
    30 ≥ (mktA.orders 1).price ∧
    (mktA2.orders 1).highestBid = 30 ∧
    (mktA2.orders 1).highestBidder = 5 ∧
    ((mktA.orders 1).highestBidder ≠ 0 →
      [Payment.mk 4 25] = [⟨(mktA.orders 1).highestBidder, (mktA.orders 1).highestBid⟩]) ∧
    ((mktA.orders 1).highestBidder = 0 → [Payment.mk 4 25] = []) ∧
    mktA2.orderBids 1 = mktA.orderBids 1 ++ [⟨5, 30, 5⟩] :=
  placeBid_monotone mktA 5 5 1 30 mktA2 [⟨4, 25⟩] (by rfl)

/-- Appending a bid by a different bidder does not change the first-match
lookup `withdrawBid` performs. -/
lemma firstBidAmount_append_ne (l : List BidRec) (b : BidRec) (sender : Account)
    (hb : b.bidder ≠ sender) :
    firstBidAmount (l ++ [b]) sender = firstBidAmount l sender := by
  induction l with
  | nil => simp [firstBidAmount, hb]
  | cons a l ih =>
    simp only [List.cons_append, firstBidAmount]
    split <;> simp [ih]

/-- C9: a successful `withdrawBid` does not remove or mark the refunded bid:
the contract state is returned unchanged, so the same non-highest bidder can
call `withdrawBid` again and receive the same refund; and a bidder displaced
(and already refunded) by a later higher bid still has their bid in the log,
so they can call `withdrawBid` afterwards and be refunded again. -/
theorem withdrawBid_no_removal (mkt : MarketState) (sender : Account) (orderId : Nat) :
    (∀ mkt2 pays, withdrawBid mkt sender orderId = .ok (mkt2, pays) →
      mkt2 = mkt ∧
      pays = [⟨sender, firstBidAmount (mkt.orderBids orderId) sender⟩] ∧
      withdrawBid mkt2 sender orderId = .ok (mkt2, pays)) ∧
    (∀ b2 now v mkt3 pays2,
      placeBid mkt b2 now orderId v = .ok (mkt3, pays2) →
      (mkt.orders orderId).highestBidder = sender →
      sender ≠ 0 →
      b2 ≠ sender →
      firstBidAmount (mkt.orderBids orderId) sender > 0 →
      pays2 = [⟨sender, (mkt.orders orderId).highestBid⟩] ∧
      withdrawBid mkt3 sender orderId
        = .ok (mkt3, [⟨sender, firstBidAmount (mkt.orderBids orderId) sender⟩])) := by
  constructor
  · intro mkt2 pays h
    simp only [withdrawBid] at h
    split at h; · simp at h
    split at h; · simp at h
    split at h; · simp at h
    split at h; · simp at h
    next h1 h2 h3 h4 =>
    simp only [Except.ok.injEq, Prod.mk.injEq] at h
    obtain ⟨hst, hpays⟩ := h
    subst hst
    refine ⟨rfl, hpays.symm, ?_⟩
    simp only [withdrawBid]
    rw [if_neg h1, if_neg h2, if_neg h3, if_neg h4, hpays]
  · intro b2 now v mkt3 pays2 hp hhb hs0 hne hpos
    simp only [placeBid] at hp
    split at hp; · simp at hp
    split at hp; · simp at hp
    split at hp; · simp at hp
    split at hp; · simp at hp
    split at hp; · simp at hp
    split at hp; · simp at hp
    split at hp; · simp at hp
    next h1 h2 h3 h4 h5 h6 h7 =>
    simp only [Except.ok.injEq, Prod.mk.injEq] at hp
    obtain ⟨hst, hpays⟩ := hp
    subst hst
    constructor
    · rw [← hpays, hhb]
      simp [hs0]
    · have hB : (mkt.orders orderId).isAuction = true := not_not.mp h4
      have hfb := firstBidAmount_append_ne (mkt.orderBids orderId) ⟨b2, v, now⟩ sender hne
      simp only [withdrawBid]
      simp [h1, hB, hne, hfb, hpos]

/-- Witness for C9: on the fixture auction, non-highest bidder 2 withdraws
(state unchanged, can withdraw again), and displaced bidder 4 — already
refunded 25 when account 5 outbid them — withdraws again for their first
recorded amount 15. -/
theorem withdrawBid_no_removal_witness :
    (mktA = mktA ∧
      [Payment.mk 2 10] = [⟨2, firstBidAmount (mktA.orderBids 1) 2⟩] ∧
      withdrawBid mktA 2 1 = .ok (mktA, [Payment.mk 2 10])) ∧
    ([Payment.mk 4 25] = [⟨4, (mktA.orders 1).highestBid⟩] ∧
      withdrawBid mktA2 4 1 = .ok (mktA2, [⟨4, firstBidAmount (mktA.orderBids 1) 4⟩])) :=
  ⟨(withdrawBid_no_removal mktA 2 1).1 mktA [⟨2, 10⟩] (by rfl),
   (withdrawBid_no_removal mktA 4 1).2 5 5 30 mktA2 [⟨4, 25⟩] (by rfl)
     (by decide) (by decide) (by decide) (by decide)⟩

/-- Counterexample to C3: on the fixture auction (bid log
`[(2,10),(4,15),(2,20),(4,25)]`, highest bidder 4), non-highest bidder 2
calls `withdrawBid` and is refunded 10 — the amount of their FIRST recorded
bid (the contract loop `break`s at the first match) — while their LAST
recorded bid amount is 20, so the refund is not the last recorded amount. -/
theorem withdrawBid_last_cex :
    withdrawBid mktA 2 1 = .ok (mktA, [⟨2, 10⟩]) ∧
    lastBidAmount (mktA.orderBids 1) 2 = 20 ∧
    firstBidAmount (mktA.orderBids 1) 2 = 10 ∧
    (10 : Nat) ≠ 20 :=
  ⟨by rfl, by decide, by decide, by decide⟩

/-- C3 (amended): for an existing auction order, `withdrawBid` fails with
`IsHighestBidder` when the caller is the highest bidder, fails with
`NoBidFound` when the bid-log lookup finds no positive amount for the
caller, and otherwise refunds the caller's FIRST recorded bid amount for
that order (not the last). -/
theorem withdrawBid_spec (mkt : MarketState) (sender : Account) (orderId : Nat)
    (hex : (mkt.orders orderId).orderId ≠ 0)
    (hauc : (mkt.orders orderId).isAuction = true) :
    ((mkt.orders orderId).highestBidder = sender →
      withdrawBid mkt sender orderId = .error .isHighestBidder) ∧
    ((mkt.orders orderId).highestBidder ≠ sender →
      firstBidAmount (mkt.orderBids orderId) sender = 0 →
      withdrawBid mkt sender orderId = .error .noBidFound) ∧
    ((mkt.orders orderId).highestBidder ≠ sender →
      firstBidAmount (mkt.orderBids orderId) sender > 0 →
      withdrawBid mkt sender orderId
        = .ok (mkt, [⟨sender, firstBidAmount (mkt.orderBids orderId) sender⟩])) := by
  refine ⟨?_, ?_, ?_⟩ <;> intro hhb <;> simp only [withdrawBid]
  · simp [hex, hauc, hhb]
  · intro hz
    simp [hex, hauc, hhb, hz]
  · intro hpos
    simp [hex, hauc, hhb, hpos]

/-- Witness for C3 (amended): on the fixture auction, bidder 4 (highest)
cannot withdraw, bidder 7 has no bid, and bidder 2 is refunded their first
recorded amount 10. -/
theorem withdrawBid_spec_witness :
    (((mktA.orders 1).highestBidder = 4 →
        withdrawBid mktA 4 1 = .error .isHighestBidder) ∧
      ((mktA.orders 1).highestBidder ≠ 4 →
        firstBidAmount (mktA.orderBids 1) 4 = 0 →
        withdrawBid mktA 4 1 = .error .noBidFound) ∧
      ((mktA.orders 1).highestBidder ≠ 4 →
        firstBidAmount (mktA.orderBids 1) 4 > 0 →
        withdrawBid mktA 4 1
          = .ok (mktA, [⟨4, firstBidAmount (mktA.orderBids 1) 4⟩]))) ∧
    (((mktA.orders 1).highestBidder = 2 →
        withdrawBid mktA 2 1 = .error .isHighestBidder) ∧
      ((mktA.orders 1).highestBidder ≠ 2 →
        firstBidAmount (mktA.orderBids 1) 2 = 0 →
        withdrawBid mktA 2 1 = .error .noBidFound) ∧
      ((mktA.orders 1).highestBidder ≠ 2 →
        firstBidAmount (mktA.orderBids 1) 2 > 0 →
        withdrawBid mktA 2 1
          = .ok (mktA, [⟨2, firstBidAmount (mktA.orderBids 1) 2⟩]))) :=
  ⟨withdrawBid_spec mktA 4 1 (by decide) (by decide),
   withdrawBid_spec mktA 2 1 (by decide) (by decide)⟩

/-- C1: the fixture's order 2 is an active fixed-price order with
`endTime = 0` ("No end time for fixed price"), yet a buyer distinct from
the seller paying the full price at any positive block time is rejected
with `OrderExpired`, because the `activeOrder` modifier requires
`block.timestamp <= endTime` and fixed-price orders store `endTime = 0`.
The code contradicts its own comment and the spec: the purchase never
succeeds (shown here at time 5 with payment 50 = price). -/
theorem buyFixedPriceOrder_expired_bug :
    (mktA.orders 2).isAuction = false ∧
    (mktA.orders 2).endTime = 0 ∧
    (mktA.orders 2).isActive = true ∧
    (mktA.orders 2).seller = 1 ∧
    (mktA.orders 2).price = 50 ∧
    buyFixedPriceOrder nftA mktA 3 5 2 50 = .error .orderExpired :=
  ⟨by decide, by decide, by decide, by decide, by decide, by rfl⟩

/-- Counterexample to C6: ending fixture auction 1 a second time fails with
`AlreadyEnded` ("Auction already ended"), not with `OrderInactive` or
`AlreadySold` as the claim states — `endAuction` checks `isActive` with its
own distinct error after the expiry check. -/
theorem double_endAuction_cex :
    endAuction nftA mktA 3 20 1 = .ok ((nftB, mktB), [⟨1, 25⟩]) ∧
    endAuction nftB mktB 3 20 1 = .error .alreadyEnded ∧
    Err.alreadyEnded ≠ Err.orderInactive ∧
    Err.alreadyEnded ≠ Err.alreadySold :=
  ⟨by rfl, by rfl, by decide, by decide⟩

/-- C6 (amended): calling `buyFixedPrice`, `endAuction` or `cancelOrder` a
second time on an order that has already been filled or cancelled (the
order exists but is no longer active) fails — `buyFixedPrice` and
`cancelOrder` with `OrderInactive`, `endAuction` with `AlreadyEnded` — and
since a failed call reverts, the second call moves no value and leaves all
state unchanged. -/
theorem double_settlement_spec (nft : NFTState) (mkt : MarketState) (orderId : Nat)
    (hex : (mkt.orders orderId).orderId ≠ 0)
    (hin : (mkt.orders orderId).isActive = false) :
    (∀ sender now v,
      buyFixedPriceOrder nft mkt sender now orderId v = .error .orderInactive) ∧
    (cancelOrder mkt (mkt.orders orderId).seller orderId = .error .orderInactive) ∧
    (∀ sender now, (mkt.orders orderId).isAuction = true →
      (mkt.orders orderId).endTime ≤ now →
      endAuction nft mkt sender now orderId = .error .alreadyEnded) := by
  refine ⟨?_, ?_, ?_⟩
  · intro sender now v
    simp only [buyFixedPriceOrder]
    simp [hex, hin]
  · simp only [cancelOrder]
    simp [hex, hin]
  · intro sender now hauc hend
    simp only [endAuction]
    simp [hex, hin, hauc, hend]

/-- Witness for C6 (amended): the settled fixture auction (order 1 of
`mktB`, filled by bidder 4) rejects every second settlement attempt. -/
theorem double_settlement_spec_witness :
    (∀ sender now v,
      buyFixedPriceOrder nftB mktB sender now 1 v = .error .orderInactive) ∧
    (cancelOrder mktB (mktB.orders 1).seller 1 = .error .orderInactive) ∧
    (∀ sender now, (mktB.orders 1).isAuction = true →
      (mktB.orders 1).endTime ≤ now →
      endAuction nftB mktB sender now 1 = .error .alreadyEnded) :=
  double_settlement_spec nftB mktB 1 (by decide) (by decide)

/-- A successful `transferFrom` moves ownership of exactly the transferred
token and touches nothing else in the registry. -/
lemma transferFrom_ok (st st' : NFTState) (fro dst : Account) (tid : Nat)
    (h : transferFrom st fro dst tid = .ok st') :
    st'.ownerOf tid = dst ∧ st'.assets = st.assets ∧
    st'.assetVersions = st.assetVersions ∧
    st'.usedIPFSHashes = st.usedIPFSHashes := by
  simp only [transferFrom] at h
  split at h
  · simp at h
  · simp only [Except.ok.injEq] at h
    subst h
    simp

/-- Counterexample to C4: settling fixture auction 1 via the Order Book
transfers token 0 to winning bidder 4 but leaves the asset still marked
`isForSale = true` at its old price 50 — `_executeSale` calls the plain
ERC721 `transferFrom`, which, unlike `buyAsset`, never clears the listing. -/
theorem sale_leaves_forSale_cex :
    executeSale nftA mktA 1 4 25 = .ok ((nftB, mktB), [⟨1, 25⟩]) ∧
    nftB.ownerOf 0 = 4 ∧
    (nftB.assets 0).isForSale = true ∧
    (nftB.assets 0).price = 50 :=
  ⟨by rfl, by decide, by decide, by decide⟩

/-- C4 (amended): a successful direct `buyAsset` sets the owner to the
buyer AND clears the asset's `isForSale` flag and price, but a successful
Order Book settlement (`_executeSale`) only sets the owner to the buyer and
leaves every asset record — including `isForSale` and `price` — unchanged. -/
theorem transfer_clears_forSale_spec
    (st : NFTState) (sender : Account) (tokenId msgValue : Nat)
    (st2 : NFTState) (pays : List Payment)
    (nft : NFTState) (mkt : MarketState) (orderId : Nat) (buyer : Account)
    (p : Nat) (r : NFTState × MarketState) (pays2 : List Payment)
    (hbuy : buyAsset st sender tokenId msgValue = .ok (st2, pays))
    (hsale : executeSale nft mkt orderId buyer p = .ok (r, pays2)) :
    (st2.ownerOf tokenId = sender ∧
      (st2.assets tokenId).isForSale = false ∧ (st2.assets tokenId).price = 0) ∧
    (r.1.ownerOf (mkt.orders orderId).assetTokenId = buyer ∧
      r.1.assets = nft.assets) := by
  constructor
  · simp only [buyAsset] at hbuy
    split at hbuy; · simp at hbuy
    split at hbuy; · simp at hbuy
    split at hbuy; · simp at hbuy
    split at hbuy; · simp at hbuy
    split at hbuy; · simp at hbuy
    simp only [Except.ok.injEq, Prod.mk.injEq] at hbuy
    obtain ⟨hst, hpays⟩ := hbuy
    subst hst
    simp
  · simp only [executeSale] at hsale
    split at hsale; · simp at hsale
    split at hsale
    · simp at hsale
    · next nft2 heq =>
      simp only [Except.ok.injEq, Prod.mk.injEq] at hsale
      obtain ⟨h1, h2⟩ := hsale
      obtain ⟨ho, ha, _, _⟩ := transferFrom_ok _ _ _ _ _ heq
      subst h1
      exact ⟨ho, ha⟩

/-- Witness for C4 (amended): account 3 buys token 0 directly for 50
(listing cleared), and auction 1 settles to bidder 4 (asset records
untouched). -/
theorem transfer_clears_forSale_spec_witness :
    (nftC.ownerOf 0 = 3 ∧
      (nftC.assets 0).isForSale = false ∧ (nftC.assets 0).price = 0) ∧
    ((nftB, mktB).1.ownerOf (mktA.orders 1).assetTokenId = 4 ∧
      (nftB, mktB).1.assets = nftA.assets) :=
  transfer_clears_forSale_spec nftA 3 0 50 nftC [⟨1, 1⟩, ⟨1, 49⟩]
    nftA mktA 1 4 25 (nftB, mktB) [⟨1, 25⟩] (by rfl) (by rfl)

/-- C10: in `createLicense` the licensor and the payer are both
`msg.sender`: on success every outgoing transfer (the `price` payout and
the excess refund) goes to the caller, the transfers sum to exactly
`msg.value`, so the caller's net payment is zero; the stored license names
the caller as licensor, and the licensee — necessarily a different
account — pays nothing and receives nothing. -/
theorem createLicense_pays_caller (st : LMState) (sender : Account)
    (now msgValue assetTokenId : Nat) (licensee : Account)
    (licenseType price duration : Nat) (terms : String)
    (st2 : LMState) (pays : List Payment)
    (h : createLicense st sender now msgValue assetTokenId licensee
            licenseType price duration terms = .ok (st2, pays)) :
    licensee ≠ sender ∧
    msgValue ≥ price ∧
    (∀ pay ∈ pays, pay.payee = sender) ∧
    (pays.map Payment.amount).sum = msgValue ∧
    (st2.licenses st.licenseIdCounter).licensor = sender ∧
    (st2.licenses st.licenseIdCounter).licensee = licensee ∧
    (∀ pay ∈ pays, pay.payee ≠ licensee) := by
  simp only [createLicense] at h
  split at h; · simp at h
  split at h; · simp at h
  split at h; · simp at h
  split at h; · simp at h
  split at h; · simp at h
  next h1 h2 h3 h4 h5 =>
  simp only [Except.ok.injEq, Prod.mk.injEq] at h
  obtain ⟨hst, hpays⟩ := h
  subst hst
  have hall : ∀ pay ∈ (if price > 0 then [Payment.mk sender price] else [])
      ++ (if msgValue > price then [Payment.mk sender (msgValue - price)] else []),
      pay.payee = sender := by
    intro pay hmem
    rcases List.mem_append.mp hmem with hm | hm <;> split at hm <;> simp_all
  rw [← hpays]
  refine ⟨h4, by omega, hall, ?_, by simp, by simp,
    fun pay hmem => by rw [hall pay hmem]; exact fun hc => h4 hc.symm⟩
  simp only [List.map_append, List.sum_append]
  split <;> split <;> simp <;> omega

/-- Witness for C10: account 1 grants a 30-priced license on asset 0 to
account 2 while attaching 100; both the 30 payout and the 70 refund go to
account 1 itself. -/
theorem createLicense_pays_caller_witness :
    (2 : Account) ≠ 1 ∧
    (100 : Nat) ≥ 30 ∧
    (∀ pay ∈ [Payment.mk 1 30, Payment.mk 1 70], pay.payee = 1) ∧
    (([Payment.mk 1 30, Payment.mk 1 70].map Payment.amount).sum = 100) ∧
    (lmB.licenses lmA.licenseIdCounter).licensor = 1 ∧
    (lmB.licenses lmA.licenseIdCounter).licensee = 2 ∧
    (∀ pay ∈ [Payment.mk 1 30, Payment.mk 1 70], pay.payee ≠ 2) :=
  createLicense_pays_caller lmA 1 5 100 0 2 0 30 50 "t" lmB
    [Payment.mk 1 30, Payment.mk 1 70] (by rfl)

/-- Operations that touch neither the version histories nor the used-hash
set preserve `HashInv`. -/
lemma hashInv_frame {st st' : NFTState}
    (hv : st'.assetVersions = st.assetVersions)
    (hu : st'.usedIPFSHashes = st.usedIPFSHashes)
    (hinv : HashInv st) : HashInv st' := by
  intro tid vrec hmem
  rw [hv] at hmem
  rw [hu]
  exact hinv tid vrec hmem

/-- `mintAsset` preserves `HashInv`: the new initial version carries the
freshly marked (nonempty) hash, old entries keep their marks. -/
lemma hashInv_mintAsset {st st' : NFTState} {sender : Account}
    {now ty roy pr tid : Nat} {nm d ver hsh : String} {pub fs : Bool}
    (hinv : HashInv st)
    (heq : mintAsset st sender now ty nm d ver hsh pub roy pr fs = .ok (st', tid)) :
    HashInv st' := by
  simp only [mintAsset] at heq
  split at heq; · simp at heq
  split at heq; · simp at heq
  split at heq; · simp at heq
  split at heq; · simp at heq
  split at heq; · simp at heq
  split at heq; · simp at heq
  next hp hty hroy hh hused hnm =>
  simp only [Except.ok.injEq, Prod.mk.injEq] at heq
  obtain ⟨hst, _⟩ := heq
  subst hst
  intro tid0 vrec hmem
  simp only at hmem ⊢
  by_cases ht : tid0 = st.tokenIdCounter
  · rw [if_pos ht] at hmem
    rcases List.mem_append.mp hmem with hold | hnew
    · obtain ⟨h1, h2⟩ := hinv tid0 vrec hold
      refine ⟨?_, h2⟩
      split <;> simp [h1]
    · simp only [List.mem_singleton] at hnew
      subst hnew
      simp only
      exact ⟨by simp, hh⟩
  · rw [if_neg ht] at hmem
    obtain ⟨h1, h2⟩ := hinv tid0 vrec hmem
    refine ⟨?_, h2⟩
    split <;> simp [h1]

/-- `updateAsset` preserves `HashInv`. -/
lemma hashInv_updateAsset {st st' : NFTState} {sender : Account}
    {now tid : Nat} {nv nh cl : String}
    (hinv : HashInv st)
    (heq : updateAsset st sender now tid nv nh cl = .ok st') :
    HashInv st' := by
  simp only [updateAsset] at heq
  split at heq; · simp at heq
  split at heq; · simp at heq
  split at heq; · simp at heq
  split at heq; · simp at heq
  split at heq; · simp at heq
  next ho hp hh hused hv =>
  simp only [Except.ok.injEq] at heq
  subst heq
  intro tid0 vrec hmem
  simp only at hmem ⊢
  by_cases ht : tid0 = tid
  · rw [if_pos ht] at hmem
    rcases List.mem_append.mp hmem with hold | hnew
    · obtain ⟨h1, h2⟩ := hinv tid0 vrec hold
      refine ⟨?_, h2⟩
      split <;> simp [h1]
    · simp only [List.mem_singleton] at hnew
      subst hnew
      simp only
      exact ⟨by simp, hh⟩
  · rw [if_neg ht] at hmem
    obtain ⟨h1, h2⟩ := hinv tid0 vrec hmem
    refine ⟨?_, h2⟩
    split <;> simp [h1]

/-- `updateAssetPrice` touches only the asset record. -/
lemma updateAssetPrice_fields {st st' : NFTState} {sender : Account}
    {tid np : Nat} {fs : Bool}
    (heq : updateAssetPrice st sender tid np fs = .ok st') :
    st'.assetVersions = st.assetVersions ∧
    st'.usedIPFSHashes = st.usedIPFSHashes := by
  simp only [updateAssetPrice] at heq
  split at heq; · simp at heq
  split at heq; · simp at heq
  simp only [Except.ok.injEq] at heq
  subst heq
  simp

/-- `buyAsset` touches only the asset record, ownership and payments. -/
lemma buyAsset_fields {st st' : NFTState} {sender : Account}
    {tid v : Nat} {pays : List Payment}
    (heq : buyAsset st sender tid v = .ok (st', pays)) :
    st'.assetVersions = st.assetVersions ∧
    st'.usedIPFSHashes = st.usedIPFSHashes := by
  simp only [buyAsset] at heq
  split at heq; · simp at heq
  split at heq; · simp at heq
  split at heq; · simp at heq
  split at heq; · simp at heq
  split at heq; · simp at heq
  simp only [Except.ok.injEq, Prod.mk.injEq] at heq
  obtain ⟨hst, _⟩ := heq
  subst hst
  simp

/-- Every reachable registry state satisfies `HashInv`. -/
lemma reach_hashInv {st : NFTState} (hre : NFTReach st) : HashInv st := by
  induction hre with
  | init =>
    intro tid vrec hmem
    simp [initialNFT] at hmem
  | mint hre heq ih => exact hashInv_mintAsset ih heq
  | update hre heq ih => exact hashInv_updateAsset ih heq
  | price hre heq ih =>
    obtain ⟨hv, hu⟩ := updateAssetPrice_fields heq
    exact hashInv_frame hv hu ih
  | buy hre heq ih =>
    obtain ⟨hv, hu⟩ := buyAsset_fields heq
    exact hashInv_frame hv hu ih
  | transfer hre heq ih =>
    obtain ⟨_, _, hv, hu⟩ := transferFrom_ok _ _ _ _ _ heq
    exact hashInv_frame hv hu ih
  | setPaused b hre ih => exact hashInv_frame rfl rfl ih

/-- C7: in every reachable registry state, minting with a `contentHash`
that already appears anywhere in any asset's version history — including
hashes added by `updateVersion` — can never succeed (so the registry is
left unchanged, a failed call being a revert), and when the call's other
arguments are themselves valid the reported error is exactly
`DuplicateContent` ("IPFS hash already used"). -/
theorem mint_duplicate_rejected (st : NFTState) (hre : NFTReach st)
    (hsh : String) (tid0 : Nat) (vrec : VersionRec)
    (hmem : vrec ∈ st.assetVersions tid0) (hhash : vrec.ipfsHash = hsh)
    (sender : Account) (now ty : Nat) (nm d ver : String)
    (pub : Bool) (roy pr : Nat) (fs : Bool) :
    (∀ r, mintAsset st sender now ty nm d ver hsh pub roy pr fs ≠ .ok r) ∧
    (st.paused = false → ty < 3 → roy ≤ 1000 → nm ≠ "" →
      mintAsset st sender now ty nm d ver hsh pub roy pr fs
        = .error .duplicateContent) := by
  obtain ⟨hused, hne⟩ := reach_hashInv hre tid0 vrec hmem
  rw [hhash] at hused hne
  constructor
  · intro r hr
    simp only [mintAsset, hused, hne] at hr
    split at hr; · simp at hr
    split at hr; · simp at hr
    split at hr; · simp at hr
    simp at hr
  · intro hp hty hroy hnm
    simp only [mintAsset]
    rw [if_neg (by simp [hp]), if_neg (by simpa using hty),
      if_neg (by simpa using hroy), if_neg hne, if_pos hused]

/-- Witness for C7: in the reachable one-asset registry `nftR` (hash "Qm1"
recorded at mint), a second, otherwise fully valid mint reusing "Qm1" is
rejected with `DuplicateContent`. -/
theorem mint_duplicate_rejected_witness :
    (∀ r, mintAsset nftR 2 7 0 "x" "y" "2" "Qm1" false 100 9 false ≠ .ok r) ∧
    (nftR.paused = false → 0 < 3 → 100 ≤ 1000 → "x" ≠ "" →
      mintAsset nftR 2 7 0 "x" "y" "2" "Qm1" false 100 9 false
        = .error .duplicateContent) :=
  mint_duplicate_rejected nftR
    (NFTReach.mint NFTReach.init
      (show mintAsset initialNFT 1 0 0 "m" "d" "1" "Qm1" true 250 50 true
          = .ok (nftR, 0) from rfl))
    "Qm1" 0 ⟨"1", "Qm1", 0, "Initial version"⟩ (by decide) (by rfl)
    2 7 0 "x" "y" "2" false 100 9 false

/-- Operations that touch neither the license records, the licensee index
nor the id counter preserve `LicenseInv`. -/
lemma licenseInv_frame {st st' : LMState}
    (hl : st'.licenses = st.licenses)
    (hu : st'.userLicenses = st.userLicenses)
    (hc : st'.licenseIdCounter = st.licenseIdCounter)
    (hinv : LicenseInv st) : LicenseInv st' := by
  constructor
  · intro u id hmem
    rw [hu] at hmem
    rw [hc, hl]
    exact hinv.1 u id hmem
  · intro id hid
    rw [hc] at hid
    rw [hl, hu]
    exact hinv.2 id hid

/-- `createLicense` preserves `LicenseInv`: the new license is appended to
its licensee's index, old entries are untouched. -/
lemma licenseInv_createLicense {st st' : LMState} {sender : Account}
    {now v a ty p d : Nat} {lic : Account} {terms : String} {pays : List Payment}
    (hinv : LicenseInv st)
    (heq : createLicense st sender now v a lic ty p d terms = .ok (st', pays)) :
    LicenseInv st' := by
  simp only [createLicense] at heq
  split at heq; · simp at heq
  split at heq; · simp at heq
  split at heq; · simp at heq
  split at heq; · simp at heq
  split at heq; · simp at heq
  simp only [Except.ok.injEq, Prod.mk.injEq] at heq
  obtain ⟨hst, _⟩ := heq
  subst hst
  constructor
  · intro u id hmem
    simp only at hmem ⊢
    by_cases hu : u = lic
    · rw [if_pos hu] at hmem
      rcases List.mem_append.mp hmem with hold | hnew
      · obtain ⟨hlt, hlic⟩ := hinv.1 u id hold
        rw [if_neg (by omega)]
        exact ⟨by omega, hlic⟩
      · simp only [List.mem_singleton] at hnew
        subst hnew
        rw [if_pos rfl]
        exact ⟨by omega, hu.symm⟩
    · rw [if_neg hu] at hmem
      obtain ⟨hlt, hlic⟩ := hinv.1 u id hmem
      rw [if_neg (by omega)]
      exact ⟨by omega, hlic⟩
  · intro id hid
    simp only at hid ⊢
    by_cases hc : id = st.licenseIdCounter
    · subst hc
      simp
    · rw [if_neg hc]
      have hlt : id < st.licenseIdCounter := by omega
      have hmem := hinv.2 id hlt
      split
      · exact List.mem_append_left _ hmem
      · exact hmem

/-- `deactivateLicense` preserves `LicenseInv`: it only clears `isActive`,
keeping the `licensee` field and the index intact. -/
lemma licenseInv_deactivateLicense {st st' : LMState} {sender : Account}
    {id0 : Nat}
    (hinv : LicenseInv st)
    (heq : deactivateLicense st sender id0 = .ok st') :
    LicenseInv st' := by
  simp only [deactivateLicense] at heq
  split at heq; · simp at heq
  split at heq; · simp at heq
  simp only [Except.ok.injEq] at heq
  subst heq
  constructor
  · intro u id hmem
    simp only at hmem ⊢
    obtain ⟨hlt, hlic⟩ := hinv.1 u id hmem
    refine ⟨hlt, ?_⟩
    split
    · next hii => subst hii; simpa using hlic
    · exact hlic
  · intro id hid
    simp only at hid ⊢
    have hmem := hinv.2 id hid
    split
    · next hii => subst hii; simpa using hmem
    · exact hmem

/-- `recordUsage` touches only the usage log. -/
lemma recordUsage_fields {st st' : LMState} {sender : Account}
    {now id : Nat} {action details : String}
    (heq : recordUsage st sender now id action details = .ok st') :
    st'.licenses = st.licenses ∧ st'.userLicenses = st.userLicenses ∧
    st'.licenseIdCounter = st.licenseIdCounter := by
  simp only [recordUsage] at heq
  split at heq; · simp at heq
  split at heq; · simp at heq
  split at heq; · simp at heq
  split at heq; · simp at heq
  simp only [Except.ok.injEq] at heq
  subst heq
  simp

/-- Every reachable license-manager state satisfies `LicenseInv`. -/
lemma reach_licenseInv {st : LMState} (hre : LMReach st) : LicenseInv st := by
  induction hre with
  | init =>
    constructor
    · intro u id hmem
      simp [initialLM] at hmem
    · intro id hid
      simp [initialLM] at hid
  | create hre heq ih => exact licenseInv_createLicense ih heq
  | usage hre heq ih =>
    obtain ⟨hl, hu, hc⟩ := recordUsage_fields heq
    exact licenseInv_frame hl hu hc ih
  | deactivate hre heq ih => exact licenseInv_deactivateLicense ih heq
  | setLicensable a b hre ih => exact licenseInv_frame rfl rfl rfl ih
  | setPaused b hre ih => exact licenseInv_frame rfl rfl rfl ih

/-- C8: in every reachable license-manager state, `hasValidLicense(user,
asset)` returns true at time `now` iff some stored license for that
(user, asset) pair is active and inside its window (`endTime = 0` or
`now ≤ endTime`); and for any active license of the asset with a nonzero
`endTime`, the per-license validity test accepts time `endTime` exactly and
rejects time `endTime + 1`. -/
theorem hasValidLicense_iff (st : LMState) (hre : LMReach st)
    (user : Account) (assetTokenId now : Nat) :
    (hasValidLicense st user assetTokenId now = true ↔
      ∃ id, id < st.licenseIdCounter ∧
        (st.licenses id).licensee = user ∧
        (st.licenses id).assetTokenId = assetTokenId ∧
        (st.licenses id).isActive = true ∧
        ((st.licenses id).endTime = 0 ∨ now ≤ (st.licenses id).endTime)) ∧
    (∀ lic : License, lic.isActive = true → lic.endTime ≠ 0 →
      licenseMatches lic lic.assetTokenId lic.endTime = true ∧
      licenseMatches lic lic.assetTokenId (lic.endTime + 1) = false) := by
  have hinv := reach_licenseInv hre
  constructor
  · constructor
    · intro hvalid
      simp only [hasValidLicense, List.any_eq_true] at hvalid
      obtain ⟨id, hmem, hmatch⟩ := hvalid
      obtain ⟨hlt, hlic⟩ := hinv.1 user id hmem
      simp only [licenseMatches, decide_eq_true_eq] at hmatch
      exact ⟨id, hlt, hlic, hmatch.1, by simpa using hmatch.2.1, hmatch.2.2⟩
    · intro hex
      obtain ⟨id, hlt, hlic, ha, hact, hwin⟩ := hex
      simp only [hasValidLicense, List.any_eq_true]
      refine ⟨id, ?_, ?_⟩
      · have := hinv.2 id hlt
        rwa [hlic] at this
      · simp only [licenseMatches, decide_eq_true_eq]
        exact ⟨ha, by simp [hact], hwin⟩
  · intro lic hact hend
    constructor
    · simp [licenseMatches, hact]
    · simp [licenseMatches, hact, hend, Nat.add_one_le_iff]

/-- Witness for C8: in the reachable state `lmB` (license 0 on asset 0 to
account 2, window ending at 55), the equivalence holds for user 2 at
time 55. -/
theorem hasValidLicense_iff_witness :
    (hasValidLicense lmB 2 0 55 = true ↔
      ∃ id, id < lmB.licenseIdCounter ∧
        (lmB.licenses id).licensee = 2 ∧
        (lmB.licenses id).assetTokenId = 0 ∧
        (lmB.licenses id).isActive = true ∧
        ((lmB.licenses id).endTime = 0 ∨ 55 ≤ (lmB.licenses id).endTime)) ∧
    (∀ lic : License, lic.isActive = true → lic.endTime ≠ 0 →
      licenseMatches lic lic.assetTokenId lic.endTime = true ∧
      licenseMatches lic lic.assetTokenId (lic.endTime + 1) = false) :=
  hasValidLicense_iff lmB
    (LMReach.create (LMReach.setLicensable 0 true LMReach.init)
      (show createLicense lmA 1 5 100 0 2 0 30 50 "t"
          = .ok (lmB, [Payment.mk 1 30, Payment.mk 1 70]) from rfl))
    2 0 55

end AIAsset
